import Mathlib

/-!
Shallow embedding of `src/excel_processor.py` (class `ExcelProcessor`):
the record-normalization model of `load_excel` and the sampling model of
`get_random_records`, together with proofs about the claims of the spec.

Modelling conventions:
* The pandas reader is a black box: `load_excel` receives an
  `Except LoadErr Grid` standing for the outcome of `pd.read_excel`
  (followed by the exception handlers of the method).
* A `Grid` is the rectangular data of the dataframe: the ordered column
  labels and the ordered rows of raw cells.
* Python scalars are the inductive `Cell` (raw, as produced by pandas,
  with numpy wrappers distinguishable via `hasattr(value, "item")`) and
  `Value` (after the per-cell normalization of `load_excel`).  Float
  payloads are carried opaquely as rationals; no arithmetic is performed
  on them anywhere in the program.
* `random.sample` is modelled by its pool-based selection algorithm
  (CPython `Lib/random.py`): at step `i` an index below the current pool
  size is drawn, the element is selected, and the last active element is
  moved into its slot.  The random source is a parameter
  `rand : Nat → Nat`; the draw at step `i` is `rand i % poolSize`.
* `print` calls are not modelled (console text carries no data).
-/

/-- A normalized payload value: `None`, `bool`, `int`, `float` or `str`. -/
inductive Value where
  | vnull : Value
  | vbool : Bool → Value
  | vint : Int → Value
  | vfloat : ℚ → Value
  | vstr : String → Value
deriving DecidableEq, Repr, Inhabited

/-- A raw cell as produced by the pandas reader: the missing marker
(`None`/`NaN`, exactly the values on which `pd.isna` is true), plain
Python scalars, and numpy wrapper scalars (the values that have an
`item` attribute). -/
inductive Cell where
  | cna : Cell
  | cbool : Bool → Cell
  | cint : Int → Cell
  | cfloat : ℚ → Cell
  | cstr : String → Cell
  | cnpBool : Bool → Cell
  | cnpInt : Int → Cell
  | cnpFloat : ℚ → Cell
deriving DecidableEq, Repr, Inhabited

/-- `pd.isna value` on a raw cell. -/
def isNA : Cell → Bool
  | .cna => true
  | _ => false

/-- The per-cell normalization of `load_excel`:
`if pd.isna(value): value = None`
`elif hasattr(value, "item"): value = value.item()`
(numpy wrappers unwrap to the corresponding native scalar), every other
value passes through unchanged. -/
def normalizeCell : Cell → Value
  | .cna => .vnull
  | .cnpBool b => .vbool b
  | .cnpInt n => .vint n
  | .cnpFloat q => .vfloat q
  | .cbool b => .vbool b
  | .cint n => .vint n
  | .cfloat q => .vfloat q
  | .cstr s => .vstr s

/-- A dataframe column label (pandas labels are arbitrary hashable
values; string and integer labels cover the coercion `str(column)`). -/
inductive ColName where
  | str : String → ColName
  | int : Int → ColName
deriving DecidableEq, Repr

/-- `str(column)`. -/
def colToString : ColName → String
  | .str s => s
  | .int n => toString n

/-- The rectangular grid behind a loaded dataframe: ordered column
labels and ordered rows of raw cells (each row aligned positionally with
the columns). -/
structure Grid where
  columns : List ColName
  rows : List (List Cell)
deriving DecidableEq, Repr

/-- One entry of `self.data_array`: `{'id': ..., 'data': {...}}`.
The payload dict is the insertion-ordered association list. -/
structure Record where
  id : Nat
  data : List (String × Value)
deriving DecidableEq, Repr, Inhabited

/-- Python dict assignment `d[k] = v`: replace in place when the key is
present (keeping its position), append otherwise. -/
def dictInsert (d : List (String × Value)) (k : String) (v : Value) :
    List (String × Value) :=
  if d.any (fun p => p.1 == k) then
    d.map (fun p => if p.1 == k then (k, v) else p)
  else
    d ++ [(k, v)]

/-- The inner loop of `load_excel`: for each column,
`row_object['data'][str(column)] = normalize(row[column])`. -/
def rowToData (cols : List ColName) (row : List Cell) :
    List (String × Value) :=
  (cols.zip row).foldl
    (fun d p => dictInsert d (colToString p.1) (normalizeCell p.2)) []

/-- `df.dropna(how='all')` followed by `df.iterrows()`: the surviving
rows paired with their original (0-based) dataframe index.  `dropna`
does not renumber the index, so the pairs keep the pre-filter
positions. -/
def dropEmptyRows (rows : List (List Cell)) : List (Nat × List Cell) :=
  rows.enum.filter (fun p => !(p.2.all isNA))

/-- The row-processing loop of `load_excel` on a successfully read
grid: each surviving row becomes `{'id': index + 1, 'data': {...}}`. -/
def load_rows (g : Grid) : List Record :=
  (dropEmptyRows g.rows).map
    (fun p => { id := p.1 + 1, data := rowToData g.columns p.2 })

/-- The store: `self.data_array`. -/
structure ExcelProcessor where
  data_array : List Record
deriving DecidableEq, Repr, Inhabited

/-- The failure outcomes of `pd.read_excel`: `FileNotFoundError`, or any
other exception (parse failure, missing sheet, ...). -/
inductive LoadErr where
  | fileNotFound : LoadErr
  | other : String → LoadErr
deriving DecidableEq, Repr

/-- `load_excel`: on a successful read the store's collection is reset
and rebuilt from the grid; on `FileNotFoundError` or any other exception
the handlers only print, so `self.data_array` is left exactly as it
was. -/
def load_excel (s : ExcelProcessor) (input : Except LoadErr Grid) :
    ExcelProcessor :=
  match input with
  | .error _ => s
  | .ok g => { data_array := load_rows g }

/-- `get_total_records`. -/
def get_total_records (s : ExcelProcessor) : Nat :=
  s.data_array.length

/-- The pool algorithm of CPython's `random.sample`, selecting `n`
elements without replacement: at each step an index `j` below the
current pool size is drawn (`rand step % size`), `pool[j]` is selected,
and the last active element is moved into slot `j` (modelled by
physically shrinking the pool).  Total for every input; the size guard
is unreachable when `n` is at most the pool size. -/
def poolSample [Inhabited α] (rand : Nat → Nat) :
    Nat → Nat → List α → List α
  | _, 0, _ => []
  | step, n + 1, pool =>
    if pool.length = 0 then []
    else
      let j := rand step % pool.length
      (pool.getD j default) ::
        poolSample rand (step + 1) n
          ((pool.set j (pool.getD (pool.length - 1) default)).dropLast)

/-- `get_random_records`, with the random source made explicit.  Returns
the result together with the (unchanged) store, mirroring that the
method never assigns to `self.data_array`. -/
def get_random_records (s : ExcelProcessor) (n : Int) (rand : Nat → Nat) :
    List Record × ExcelProcessor :=
  if s.data_array = [] then ([], s)
  else if n ≤ 0 then ([], s)
  else if (s.data_array.length : Int) ≤ n then (s.data_array, s)
  else (poolSample rand 0 n.toNat s.data_array, s)

/-! ### List lemmas for the pool-based sampler -/

/-- Writing back the element already stored at an index leaves a list
unchanged. -/
theorem set_getD_self {α : Type} : ∀ (l : List α) (i : Nat) (d : α),
    l.set i (l.getD i d) = l
  | [], _, _ => rfl
  | _ :: _, 0, _ => rfl
  | a :: l, i + 1, d => by
    simp only [List.getD_cons_succ, List.set_cons_succ, List.cons.injEq,
      true_and]
    exact set_getD_self l i d

/-- Pulling the element at index `j` to the front while overwriting its
slot with `z` is a permutation of pushing `z` onto the list. -/
theorem getD_cons_set_perm {α : Type} :
    ∀ (l : List α) (j : Nat) (z d : α), j < l.length →
      List.Perm ((l.getD j d) :: l.set j z) (z :: l)
  | a :: l, 0, z, d, _ => List.Perm.swap z a l
  | a :: l, j + 1, z, d, h => by
    simp only [List.getD_cons_succ, List.set_cons_succ]
    exact ((List.Perm.swap a (l.getD j d) (l.set j z)).trans
      (List.Perm.cons a
        (getD_cons_set_perm l j z d (by simpa using h)))).trans
      (List.Perm.swap z a l)

/-- One step of the pool algorithm: selecting `pool[j]`, overwriting
slot `j` with the last element and discarding the last slot is a
permutation of the whole pool with the selected element in front. -/
theorem pool_step_perm {α : Type} (l : List α) (j : Nat) (d : α)
    (hj : j < l.length) :
    List.Perm
      ((l.getD j d) :: ((l.set j (l.getD (l.length - 1) d)).dropLast)) l := by
  have hne : l ≠ [] := by
    intro h
    rw [h] at hj
    simp at hj
  obtain ⟨A, y, hAy⟩ : ∃ A y, l = A ++ [y] :=
    ⟨l.dropLast, l.getLast hne, (List.dropLast_append_getLast hne).symm⟩
  subst hAy
  have hlen : (A ++ [y]).length = A.length + 1 := by simp
  have hgetLast : (A ++ [y]).getD ((A ++ [y]).length - 1) d = y := by
    rw [hlen]
    simp only [Nat.add_sub_cancel]
    rw [List.getD_append_right A [y] d A.length (le_refl _)]
    simp
  rcases Nat.lt_or_ge j A.length with hjA | hjA
  · have hset : (A ++ [y]).set j y = A.set j y ++ [y] := by
      rw [List.set_append, if_pos hjA]
    have hgd : (A ++ [y]).getD j d = A.getD j d :=
      List.getD_append A [y] d j hjA
    rw [hgetLast, hset, List.dropLast_concat, hgd]
    exact (getD_cons_set_perm A j y d hjA).trans
      (List.perm_append_singleton y A).symm
  · have hjE : j = A.length := by
      rw [hlen] at hj
      omega
    subst hjE
    have hidx : (A ++ [y]).length - 1 = A.length := by simp
    have hgetA : (A ++ [y]).getD A.length d = y := by
      rw [List.getD_append_right A [y] d A.length (le_refl _)]
      simp
    have hset : (A ++ [y]).set A.length y = A ++ [y] := by
      have h0 := set_getD_self (A ++ [y]) A.length d
      rw [hgetA] at h0
      exact h0
    rw [hidx, hgetA, hset, List.dropLast_concat]
    exact (List.perm_append_singleton y A).symm

/-- `poolSample` returns exactly `n` elements whenever `n` is at most
the pool size (which `get_random_records` guarantees). -/
theorem poolSample_length {α : Type} [Inhabited α] (rand : Nat → Nat) :
    ∀ (n step : Nat) (pool : List α), n ≤ pool.length →
      (poolSample rand step n pool).length = n := by
  intro n
  induction n with
  | zero => intro step pool _; rfl
  | succ m ih =>
    intro step pool h
    have hk : ¬ pool.length = 0 := by omega
    rw [poolSample, if_neg hk]
    simp only [List.length_cons]
    rw [ih (step + 1)]
    simp only [List.length_dropLast, List.length_set]
    omega

/-- The elements selected by `poolSample` extend to a permutation of
the pool: the selection is drawn without replacement. -/
theorem poolSample_perm {α : Type} [Inhabited α] (rand : Nat → Nat) :
    ∀ (n step : Nat) (pool : List α), n ≤ pool.length →
      ∃ rest, List.Perm (poolSample rand step n pool ++ rest) pool := by
  intro n
  induction n with
  | zero =>
    intro step pool _
    exact ⟨pool, by rw [poolSample]; exact List.Perm.refl pool⟩
  | succ m ih =>
    intro step pool h
    have hk : ¬ pool.length = 0 := by omega
    have hj : rand step % pool.length < pool.length :=
      Nat.mod_lt _ (by omega)
    obtain ⟨rest, hrest⟩ := ih (step + 1)
      ((pool.set (rand step % pool.length)
        (pool.getD (pool.length - 1) default)).dropLast)
      (by simp only [List.length_dropLast, List.length_set]; omega)
    refine ⟨rest, ?_⟩
    rw [poolSample, if_neg hk, List.cons_append]
    exact (List.Perm.cons _ hrest).trans
      (pool_step_perm pool (rand step % pool.length) default hj)

/-- Every element selected by `poolSample` comes from the pool. -/
theorem poolSample_subset {α : Type} [Inhabited α] (rand : Nat → Nat)
    (n step : Nat) (pool : List α) (h : n ≤ pool.length) :
    ∀ x ∈ poolSample rand step n pool, x ∈ pool := by
  obtain ⟨rest, hrest⟩ := poolSample_perm rand n step pool h
  intro x hx
  exact hrest.mem_iff.1 (List.mem_append_left rest hx)

/-- On a duplicate-free pool, `poolSample` selects pairwise distinct
elements. -/
theorem poolSample_nodup {α : Type} [Inhabited α] (rand : Nat → Nat)
    (n step : Nat) (pool : List α) (h : n ≤ pool.length)
    (hd : pool.Nodup) : (poolSample rand step n pool).Nodup := by
  obtain ⟨rest, hrest⟩ := poolSample_perm rand n step pool h
  exact (hrest.symm.nodup hd).of_append_left

/-! ### Lemmas on `enumFrom` and on payload keys -/

/-- The indices paired by `enumFrom` are strictly increasing. -/
theorem pairwise_fst_lt_enumFrom {α : Type} :
    ∀ (l : List α) (n : Nat),
      List.Pairwise (fun p q => p.1 < q.1) (List.enumFrom n l)
  | [], _ => List.Pairwise.nil
  | a :: l, n => by
    rw [List.enumFrom_cons]
    refine List.Pairwise.cons ?_ (pairwise_fst_lt_enumFrom l (n + 1))
    rintro ⟨i, x⟩ hq
    have h := List.mem_enumFrom hq
    exact Nat.lt_of_succ_le h.1

/-- Every pair produced by `enumFrom` carries an element of the list. -/
theorem snd_mem_of_mem_enumFrom {α : Type} :
    ∀ (l : List α) (n : Nat) (p : Nat × α),
      p ∈ List.enumFrom n l → p.2 ∈ l := by
  intro l n ⟨i, x⟩ hp
  obtain ⟨hle, hlt, hx⟩ := List.mem_enumFrom hp
  rw [hx]
  exact List.getElem_mem (by omega)

/-- `dictInsert` adds exactly the inserted key to the key set of a
payload dict. -/
theorem keys_dictInsert (d : List (String × Value)) (k : String)
    (v : Value) :
    ((dictInsert d k v).map Prod.fst).toFinset
      = insert k (d.map Prod.fst).toFinset := by
  unfold dictInsert
  split
  next h =>
    have hmem : k ∈ (d.map Prod.fst).toFinset := by
      rw [List.any_eq_true] at h
      obtain ⟨p, hp, hpk⟩ := h
      rw [List.mem_toFinset, List.mem_map]
      exact ⟨p, hp, by simpa using hpk⟩
    have hmap : (d.map (fun p => if p.1 == k then (k, v) else p)).map
        Prod.fst = d.map Prod.fst := by
      rw [List.map_map]
      apply List.map_congr_left
      intro p hp
      by_cases hpk : p.1 = k
      · simp [hpk]
      · simp [hpk]
    rw [hmap, Finset.insert_eq_self.2 hmem]
  next h =>
    rw [List.map_append, List.toFinset_append]
    ext x
    simp [or_comm]

/-- Folding the per-column dict assignments of `load_excel` over a list
of column/cell pairs yields exactly the coerced column names as keys
(joined with whatever keys the accumulator already had). -/
theorem keys_rowFold :
    ∀ (pairs : List (ColName × Cell)) (d : List (String × Value)),
      ((pairs.foldl
          (fun d p => dictInsert d (colToString p.1) (normalizeCell p.2))
          d).map Prod.fst).toFinset
        = (pairs.map (fun p => colToString p.1)).toFinset
            ∪ (d.map Prod.fst).toFinset := by
  intro pairs
  induction pairs with
  | nil => intro d; simp
  | cons a rest ih =>
    intro d
    rw [List.foldl_cons, ih, keys_dictInsert, List.map_cons,
      List.toFinset_cons]
    ext x
    simp

/-- The key set of a normalized row payload is the coerced column-name
set, for every row at least as wide as the column list. -/
theorem keys_rowToData (cols : List ColName) (row : List Cell)
    (h : cols.length ≤ row.length) :
    ((rowToData cols row).map Prod.fst).toFinset
      = (cols.map colToString).toFinset := by
  unfold rowToData
  rw [keys_rowFold]
  have hz : (cols.zip row).map (fun p => colToString p.1)
      = cols.map colToString := by
    have h1 : (cols.zip row).map (fun p => colToString p.1)
        = ((cols.zip row).map Prod.fst).map colToString := by
      rw [List.map_map]
      rfl
    rw [h1, List.map_fst_zip cols row h]
  rw [hz]
  simp

/-! ### Concrete fixtures -/

/-- A grid whose middle row is entirely empty (all cells NA). -/
def gridGap : Grid :=
  { columns := [.str "name", .str "age"],
    rows := [[.cstr "Ana", .cint 30], [.cna, .cna], [.cstr "Bo", .cna]] }

/-- A one-row grid used to pre-populate a store. -/
def gridOne : Grid := { columns := [.str "a"], rows := [[.cint 7]] }

/-- A store holding three distinct records. -/
def stThree : ExcelProcessor :=
  { data_array := [⟨1, [("a", .vint 1)]⟩, ⟨2, [("a", .vint 2)]⟩,
      ⟨3, [("a", .vint 3)]⟩] }

/-- The first record produced by loading `gridGap`. -/
def recAna : Record :=
  { id := 1, data := [("name", .vstr "Ana"), ("age", .vint 30)] }

/-! ### Claim theorems -/

/-- C1: `load_excel` on a grid with an entirely-empty middle row keeps
the correct record count (R = 2), but the ids are `[1, 3]`, not the
contiguous `{1, 2}` the claim demands: `iterrows` runs over the
dataframe index, which `dropna` does not renumber, so the dropped empty
row does consume an id. -/
theorem load_ids_not_contiguous_on_gap :
    get_total_records (load_excel ⟨[]⟩ (Except.ok gridGap)) = 2 ∧
    (load_excel ⟨[]⟩ (Except.ok gridGap)).data_array.map Record.id
      = [1, 3] ∧
    (load_excel ⟨[]⟩ (Except.ok gridGap)).data_array.map Record.id
      ≠ [1, 2] := by
  refine ⟨rfl, by decide, by decide⟩

/-- C2 counterexample: a store loaded with one record, hit by a failing
load, still holds that record — `Count` returns 1, not 0, and the
collection is not empty: the exception handlers of `load_excel` only
print and never reset `self.data_array`. -/
theorem failed_load_keeps_previous_records :
    get_total_records
        (load_excel (load_excel ⟨[]⟩ (Except.ok gridOne))
          (Except.error (.other "parse failure"))) = 1 ∧
    get_total_records
        (load_excel (load_excel ⟨[]⟩ (Except.ok gridOne))
          (Except.error (.other "parse failure"))) ≠ 0 ∧
    (load_excel (load_excel ⟨[]⟩ (Except.ok gridOne))
        (Except.error (.other "parse failure"))).data_array ≠ [] := by
  refine ⟨rfl, by decide, by decide⟩

/-- C2 (amended): a failing `load_excel` call (file not found or any
other read/parse failure) leaves the store exactly as it was — the
previous collection, never a partially populated one; `Count` returns
the previous count. -/
theorem load_excel_error_keeps_store (s : ExcelProcessor) (e : LoadErr) :
    load_excel s (Except.error e) = s := rfl

/-- C3: for a non-empty collection and `n ≥ len(records)`,
`get_random_records` returns (a copy of) the full collection itself:
every element exactly once, in original insertion order, not
randomized. -/
theorem get_random_records_clamp (s : ExcelProcessor) (n : Int)
    (rand : Nat → Nat) (hne : s.data_array ≠ [])
    (hn : (s.data_array.length : Int) ≤ n) :
    (get_random_records s n rand).1 = s.data_array := by
  have hpos : 0 < s.data_array.length := List.length_pos.2 hne
  have hn0 : ¬ n ≤ 0 := by omega
  unfold get_random_records
  rw [if_neg hne, if_neg hn0, if_pos hn]

/-- C3 witness: a three-record store with `n = 7`. -/
theorem get_random_records_clamp_witness :
    stThree.data_array ≠ [] ∧ ((stThree.data_array.length : Int) ≤ 7) ∧
    (get_random_records stThree 7 (fun k => k)).1 = stThree.data_array :=
  ⟨by decide, by decide,
    get_random_records_clamp stThree 7 (fun k => k) (by decide)
      (by decide)⟩

/-- C4: for `0 < n < len(records)` on a collection with pairwise
distinct ids (the store invariant every loaded collection satisfies),
`get_random_records` returns exactly `n` records, each drawn from the
collection, with no record appearing twice. -/
theorem get_random_records_sample_distinct (s : ExcelProcessor)
    (n : Int) (rand : Nat → Nat)
    (hd : (s.data_array.map Record.id).Nodup)
    (h0 : 0 < n) (h1 : n < (s.data_array.length : Int)) :
    (get_random_records s n rand).1.length = n.toNat ∧
    (∀ r ∈ (get_random_records s n rand).1, r ∈ s.data_array) ∧
    (get_random_records s n rand).1.Nodup := by
  have hne : s.data_array ≠ [] := by
    intro h
    rw [h] at h1
    simp at h1
    omega
  have hn0 : ¬ n ≤ 0 := by omega
  have hlt : ¬ ((s.data_array.length : Int) ≤ n) := by omega
  have hle : n.toNat ≤ s.data_array.length := by omega
  unfold get_random_records
  rw [if_neg hne, if_neg hn0, if_neg hlt]
  exact ⟨poolSample_length rand n.toNat 0 s.data_array hle,
    poolSample_subset rand n.toNat 0 s.data_array hle,
    poolSample_nodup rand n.toNat 0 s.data_array hle
      (List.Nodup.of_map Record.id hd)⟩

/-- C4 witness: three distinct records, `n = 2`, identity random
source. -/
theorem get_random_records_sample_distinct_witness :
    (stThree.data_array.map Record.id).Nodup ∧ ((0 : Int) < 2) ∧
    ((2 : Int) < (stThree.data_array.length : Int)) ∧
    ((get_random_records stThree 2 (fun k => k)).1.length
        = (2 : Int).toNat ∧
      (∀ r ∈ (get_random_records stThree 2 (fun k => k)).1,
        r ∈ stThree.data_array) ∧
      (get_random_records stThree 2 (fun k => k)).1.Nodup) :=
  ⟨by decide, by decide, by decide,
    get_random_records_sample_distinct stThree 2 (fun k => k)
      (by decide) (by decide) (by decide)⟩

/-- C5: with an empty collection, or with `n ≤ 0`, `get_random_records`
returns the empty list (and, being a total function of the store, `n`
and the random source, it cannot raise for any out-of-range `n`). -/
theorem get_random_records_degenerate (s : ExcelProcessor) (n : Int)
    (rand : Nat → Nat) (h : s.data_array = [] ∨ n ≤ 0) :
    (get_random_records s n rand).1 = [] := by
  unfold get_random_records
  rcases h with h | h
  · rw [if_pos h]
  · by_cases he : s.data_array = []
    · rw [if_pos he]
    · rw [if_neg he, if_pos h]

/-- C5 witness: the never-loaded store with `n = 5`. -/
theorem get_random_records_degenerate_witness :
    ((⟨[]⟩ : ExcelProcessor).data_array = [] ∨ (5 : Int) ≤ 0) ∧
    (get_random_records ⟨[]⟩ 5 (fun k => k)).1 = [] :=
  ⟨Or.inl rfl,
    get_random_records_degenerate ⟨[]⟩ 5 (fun k => k) (Or.inl rfl)⟩

/-- C6: `get_random_records` never mutates the store — in every branch
the store component of the result is the input store, unchanged in
length, elements and order (the method never assigns to
`self.data_array`; `random.sample` copies its population and `copy`
is read-only). -/
theorem get_random_records_preserves_store (s : ExcelProcessor)
    (n : Int) (rand : Nat → Nat) :
    (get_random_records s n rand).2 = s := by
  unfold get_random_records
  split
  · rfl
  split
  · rfl
  split
  · rfl
  · rfl

/-! ### Reference-level model for the shallow-copy claim

Python lists hold references to objects.  To reason about aliasing, the
store is re-modelled at the reference level: `data_array` is the list of
references and a heap `Nat → Record` gives each reference its current
record object.  `list.copy()` allocates a fresh list spine holding the
same references; this is the value `snapshotRefs` returns (a new list
value, so replacing or removing entries of the returned list cannot
change the store's own list).  In-place mutation of a record object is a
heap update. -/

/-- The store at the reference level: `self.data_array` as a list of
references into the object heap. -/
structure ExcelProcessorRef where
  data_array : List Nat
deriving DecidableEq, Repr

/-- The records the store's collection currently denotes, read through
the heap. -/
def derefRecords (heap : Nat → Record) (s : ExcelProcessorRef) :
    List Record :=
  s.data_array.map heap

/-- The clamp branch `return self.data_array.copy()` at the reference
level: a fresh list carrying the same record references (a shallow
copy — the record objects themselves are not duplicated). -/
def snapshotRefs (s : ExcelProcessorRef) : List Nat :=
  s.data_array

/-- A second record value, distinct from `recAna`, used to mutate a
shared record object. -/
def recEve : Record :=
  { id := 1, data := [("name", .vstr "Eve"), ("age", .vint 30)] }

/-- A one-record store at the reference level. -/
def refStoreOne : ExcelProcessorRef := { data_array := [0] }

/-- C7 counterexample: the copy is shallow.  Reference `0` is in the
returned snapshot; mutating the record object behind it (a heap update
through the returned sequence) changes the record collection the store
denotes — the claim that any such mutation leaves the store's
collection unchanged is false. -/
theorem shallow_copy_shares_records :
    0 ∈ snapshotRefs refStoreOne ∧
    derefRecords (Function.update (fun _ => recAna) 0 recEve)
        refStoreOne
      ≠ derefRecords (fun _ => recAna) refStoreOne := by
  constructor
  · decide
  · intro h
    have h0 : Function.update (fun _ => recAna) 0 recEve 0 = recAna := by
      have := congrArg (fun l => l.headI) h
      simpa [derefRecords, refStoreOne] using this
    rw [Function.update_same] at h0
    exact absurd (congrArg Record.data h0) (by decide)

/-- C7 (amended): the clamp branch returns a fresh list value holding
exactly the store's record references, so mutating the returned list
itself cannot affect the store; but the record objects are shared: a
record mutated through a returned reference is the record the store's
collection denotes from then on. -/
theorem snapshot_fresh_list_shared_records (s : ExcelProcessorRef)
    (heap : Nat → Record) (a : Nat) (r : Record)
    (ha : a ∈ snapshotRefs s) :
    snapshotRefs s = s.data_array ∧
    r ∈ derefRecords (Function.update heap a r) s := by
  refine ⟨rfl, ?_⟩
  unfold derefRecords
  exact List.mem_map.2 ⟨a, ha, by simp⟩

/-- C7 witness: the one-record store, mutating through reference 0. -/
theorem snapshot_fresh_list_shared_records_witness :
    0 ∈ snapshotRefs refStoreOne ∧
    (snapshotRefs refStoreOne = refStoreOne.data_array ∧
      recEve ∈ derefRecords
        (Function.update (fun _ => recAna) 0 recEve) refStoreOne) :=
  ⟨by decide,
    snapshot_fresh_list_shared_records refStoreOne (fun _ => recAna)
      0 recEve (by decide)⟩

/-- C8: after a successful load of a rectangular grid, every record's
payload key set is exactly the grid's column names coerced to strings,
identically for every record. -/
theorem load_record_keys (g : Grid)
    (hrect : ∀ row ∈ g.rows, g.columns.length ≤ row.length)
    (r : Record) (hr : r ∈ load_rows g) :
    (r.data.map Prod.fst).toFinset
      = (g.columns.map colToString).toFinset := by
  unfold load_rows at hr
  obtain ⟨p, hp, hpr⟩ := List.mem_map.1 hr
  have hrow : p.2 ∈ g.rows := by
    unfold dropEmptyRows at hp
    have hp2 := List.mem_of_mem_filter hp
    rw [List.enum_eq_enumFrom] at hp2
    exact snd_mem_of_mem_enumFrom g.rows 0 p hp2
  have hdata : r.data = rowToData g.columns p.2 := by
    rw [← hpr]
  rw [hdata]
  exact keys_rowToData g.columns p.2 (hrect p.2 hrow)

/-- C8 witness: the two records loaded from `gridGap` (null values
included) carry exactly the keys `{"name", "age"}`. -/
theorem load_record_keys_witness :
    (∀ row ∈ gridGap.rows, gridGap.columns.length ≤ row.length) ∧
    recAna ∈ load_rows gridGap ∧
    (recAna.data.map Prod.fst).toFinset
      = (gridGap.columns.map colToString).toFinset :=
  ⟨by decide, by decide,
    load_record_keys gridGap (by decide) recAna (by decide)⟩

/-- C9: per-cell normalization is independent and exhaustive: the
missing marker becomes null; numpy-wrapped numerics (and booleans)
unwrap to the corresponding native value — integer wrappers to
integers, float wrappers to floats; every plain value (string, boolean,
plain number) passes through unchanged. -/
theorem normalizeCell_cases :
    normalizeCell .cna = .vnull ∧
    (∀ n : Int, normalizeCell (.cnpInt n) = .vint n) ∧
    (∀ q : ℚ, normalizeCell (.cnpFloat q) = .vfloat q) ∧
    (∀ b : Bool, normalizeCell (.cnpBool b) = .vbool b) ∧
    (∀ s : String, normalizeCell (.cstr s) = .vstr s) ∧
    (∀ b : Bool, normalizeCell (.cbool b) = .vbool b) ∧
    (∀ n : Int, normalizeCell (.cint n) = .vint n) ∧
    (∀ q : ℚ, normalizeCell (.cfloat q) = .vfloat q) :=
  ⟨rfl, fun _ => rfl, fun _ => rfl, fun _ => rfl, fun _ => rfl,
    fun _ => rfl, fun _ => rfl, fun _ => rfl⟩

/-- C10: after every successful load the record ids are strictly
increasing in stored order and every id is at least 1 — each id is one
plus the surviving row's position in the pre-filter grid. -/
theorem load_ids_increasing_positive (g : Grid) :
    List.Pairwise (fun a b => a.id < b.id) (load_rows g) ∧
    ∀ r ∈ load_rows g, 1 ≤ r.id := by
  constructor
  · unfold load_rows dropEmptyRows
    rw [List.pairwise_map]
    apply List.Pairwise.filter
    rw [List.enum_eq_enumFrom]
    exact (pairwise_fst_lt_enumFrom g.rows 0).imp
      (fun hab => Nat.succ_lt_succ hab)
  · intro r hr
    unfold load_rows at hr
    obtain ⟨p, hp, hpr⟩ := List.mem_map.1 hr
    rw [← hpr]
    exact Nat.succ_le_succ (Nat.zero_le p.1)

/-- C10 witness: the grid with a dropped empty row (ids `[1, 3]`). -/
theorem load_ids_increasing_positive_witness :
    List.Pairwise (fun a b => a.id < b.id) (load_rows gridGap) ∧
    ∀ r ∈ load_rows gridGap, 1 ≤ r.id :=
  load_ids_increasing_positive gridGap
